import Mathlib

/-!
Verification of the ArWings pose-driven overlay placement engine and of the
inline PLY Gaussian-splat parser, as implemented in the repository sources
(the GaussianSplatLoader class and render loop of the unnamed source file
part_002, together with the smoothing formula shared by script.js).

Modelling conventions.
* JavaScript numbers are modelled as exact rationals; IEEE-754 double
  rounding of intermediate arithmetic is not modelled.  Where the code
  decodes raw IEEE-754 binary32 record fields, the decoded value is
  represented exactly by the type F32V, including the infinities and NaN.
* An ArrayBuffer is a list of byte values.
* TextDecoder().decode is modelled for ASCII bytes; every header the
  claims concern is ASCII.
* External capabilities (the THREE.js camera unprojection, the vector
  length used by Vector3.normalize, Math.hypot, Math.atan2) are
  parameters of the embedding, as the spec treats them as collaborator
  interfaces.
* Rational division in Lean is total with x / 0 = 0 whereas JS yields
  Infinity; every theorem below that divides keeps the divisor nonzero
  through its hypotheses.
-/

/-- Value decoded from an IEEE-754 binary32 field of a PLY record. -/
inductive F32V where
  | finite (q : ℚ)
  | posInf
  | negInf
  | nan
  deriving DecidableEq, Repr

/-- Byte at index p of the buffer (reads are bounds-checked separately;
out-of-range defaults are never observable through the parser). -/
def byteAt (buf : List Nat) (p : Nat) : Nat := buf.getD p 0

/-- Exact decode of four little-endian bytes as an IEEE-754 binary32
number, mirroring DataView.getFloat32(-, true). -/
def decodeF32 (b0 b1 b2 b3 : Nat) : F32V :=
  let bits : Nat := b0 % 256 + 256 * (b1 % 256) + 65536 * (b2 % 256) + 16777216 * (b3 % 256)
  let s : Nat := bits / 2 ^ 31
  let e : Nat := bits / 2 ^ 23 % 256
  let m : Nat := bits % 2 ^ 23
  if e = 255 then
    if m = 0 then (if s = 1 then F32V.negInf else F32V.posInf) else F32V.nan
  else
    let mag : ℚ :=
      if e = 0 then mkRat (m : Int) (2 ^ 149)
      else if 127 ≤ e then mkRat (((2 ^ 23 + m) * 2 ^ (e - 127) : Nat) : Int) (2 ^ 23)
      else mkRat ((2 ^ 23 + m : Nat) : Int) (2 ^ 23 * 2 ^ (127 - e))
    F32V.finite (if s = 1 then -mag else mag)

/-- The binary32 value stored little-endian at byte index p of the buffer. -/
def decF32At (buf : List Nat) (p : Nat) : F32V :=
  decodeF32 (byteAt buf p) (byteAt buf (p + 1)) (byteAt buf (p + 2)) (byteAt buf (p + 3))

/-- ASCII model of TextDecoder().decode on the first 2048 bytes
(parsePLY line: new TextDecoder().decode(buffer.slice(0, 2048))). -/
def asciiDecode (bs : List Nat) : List Char :=
  bs.map (fun b => Char.ofNat b)

/-- The header text the parser scans: the decoded first 2048 bytes. -/
def headerTextOf (buf : List Nat) : List Char :=
  asciiDecode (buf.take 2048)

/-- First index at which needle occurs in hay, as String.prototype.indexOf. -/
def indexOfSub (needle : List Char) : List Char → Option Nat
  | [] => if needle = [] then some 0 else none
  | c :: cs =>
    if needle.isPrefixOf (c :: cs) then some 0
    else (indexOfSub needle cs).map (· + 1)

/-- The marker string end_header followed by a newline. -/
def kwEndHeader : List Char :=
  ['e', 'n', 'd', '_', 'h', 'e', 'a', 'd', 'e', 'r', '\n']

/-- headerEndIndex = headerText.indexOf(end_header marker) + 11.  When the
marker is absent, JS indexOf returns -1 and the sum is 10. -/
def headerEndOf (buf : List Nat) : Nat :=
  match indexOfSub kwEndHeader (headerTextOf buf) with
  | some i => i + 11
  | none => 10

/-- Digit characters accepted by the regex class for digits. -/
def isDig (c : Char) : Bool := '0' ≤ c && c ≤ '9'

/-- parseInt on a digit run captured by the vertex-count regex. -/
def digitsToNat (ds : List Char) : Nat :=
  ds.foldl (fun acc c => acc * 10 + (c.toNat - 48)) 0

/-- The literal part of the vertex-count regex: element vertex and a space. -/
def kwElemVertex : List Char :=
  ['e', 'l', 'e', 'm', 'e', 'n', 't', ' ', 'v', 'e', 'r', 't', 'e', 'x', ' ']

/-- First match of the regex for element vertex followed by digits, returning
the captured digit run: the regex engine retries at the next index when the
pattern fails at the current one. -/
def scanVertex : List Char → Option (List Char)
  | [] => none
  | c :: cs =>
    if kwElemVertex.isPrefixOf (c :: cs) then
      let ds := ((c :: cs).drop 15).takeWhile isDig
      if ds = [] then scanVertex cs else some ds
    else scanVertex cs

/-- Characters matched by the regex dot: anything but a line terminator. -/
def isDotChar (c : Char) : Bool :=
  !(c = '\n' || c = '\r' || c.toNat = 8232 || c.toNat = 8233)

/-- The literal part of the property-line regex: property and a space. -/
def kwPropSp : List Char :=
  ['p', 'r', 'o', 'p', 'e', 'r', 't', 'y', ' ']

/-- Attempt to match the property-line regex at the start of s; on success
return the match and the remainder after it. -/
def tryPropAt (s : List Char) : Option (List Char × List Char) :=
  if kwPropSp.isPrefixOf s then
    let t := s.drop 9
    let run := t.takeWhile isDotChar
    if run = [] then none else some (kwPropSp ++ run, t.drop run.length)
  else none

/-- Global scan for the property-line regex, fuelled for structural
recursion; the fuel is always instantiated with the length of the text. -/
def matchPropLinesAux : Nat → List Char → List (List Char)
  | 0, _ => []
  | fuel + 1, s =>
    match tryPropAt s with
    | some (m, rest) => m :: matchPropLinesAux fuel rest
    | none =>
      match s with
      | [] => []
      | _ :: cs => matchPropLinesAux fuel cs

/-- All matches of the property-line regex, as String.prototype.match with
the global flag. -/
def matchPropLines (s : List Char) : List (List Char) :=
  matchPropLinesAux s.length s

/-- The property lines the parser collects: the regex runs over
headerText.slice(0, headerEndIndex). -/
def propLinesOf (buf : List Nat) : List (List Char) :=
  matchPropLines ((headerTextOf buf).take (headerEndOf buf))

/-- String.prototype.split with a single-character separator. -/
def splitOnChar (sep : Char) : List Char → List (List Char)
  | [] => [[]]
  | c :: cs =>
    let r := splitOnChar sep cs
    if c = sep then [] :: r
    else
      match r with
      | [] => [[c]]
      | h :: t => (c :: h) :: t

def kwFloat : List Char := ['f', 'l', 'o', 'a', 't']
def kwDouble : List Char := ['d', 'o', 'u', 'b', 'l', 'e']
def kwUchar : List Char := ['u', 'c', 'h', 'a', 'r']
def kwInt : List Char := ['i', 'n', 't']

/-- The typeSizeBytes table: float 4, double 8, uchar 1, int 4; any other
type name is absent and the property line is skipped. -/
def typeSize (ty : List Char) : Option Nat :=
  if ty = kwFloat then some 4
  else if ty = kwDouble then some 8
  else if ty = kwUchar then some 1
  else if ty = kwInt then some 4
  else none

/-- One parsed property: the destructured name may be absent (JS
undefined) when the line has fewer than three space-separated parts. -/
structure PlyProp where
  name : Option (List Char)
  type : List Char
  offset : Nat
  deriving DecidableEq, Repr

/-- Fold of the property lines into the properties array and the running
vertexStride, mirroring the corrected property-parsing loop. -/
def buildProps (lines : List (List Char)) : List PlyProp × Nat :=
  lines.foldl
    (fun acc line =>
      let parts := splitOnChar ' ' line
      match parts.get? 1 with
      | some ty =>
        match typeSize ty with
        | some sz => (acc.1 ++ [⟨parts.get? 2, ty, acc.2⟩], acc.2 + sz)
        | none => acc
      | none => acc)
    ([], 0)

/-- properties.find on a property name, yielding its byte offset. -/
def findOffset (props : List PlyProp) (nm : List Char) : Option Nat :=
  (props.find? (fun p => p.name = some nm)).map (fun p => p.offset)

def kwX : List Char := ['x']
def kwY : List Char := ['y']
def kwZ : List Char := ['z']
def kwFdc0 : List Char := ['f', '_', 'd', 'c', '_', '0']
def kwFdc1 : List Char := ['f', '_', 'd', 'c', '_', '1']
def kwFdc2 : List Char := ['f', '_', 'd', 'c', '_', '2']
def kwRed : List Char := ['r', 'e', 'd']
def kwGreen : List Char := ['g', 'r', 'e', 'e', 'n']
def kwBlue : List Char := ['b', 'l', 'u', 'e']

/-- Errors parsePLY can throw: the three descriptive header errors and the
RangeError a DataView read past the buffer end raises. -/
inductive PlyErr where
  | missingVertexCount
  | noProperties
  | missingPositionProps
  | rangeError
  deriving DecidableEq, Repr

/-- Everything the header-parsing half of parsePLY computes before the
record-reading loop. -/
structure PlyHeader where
  headerEnd : Nat
  vertexCount : Nat
  stride : Nat
  ox : Nat
  oy : Nat
  oz : Nat
  colR : Option Nat
  colG : Option Nat
  colB : Option Nat
  isSH : Bool
  deriving DecidableEq, Repr

/-- The header half of parsePLY (part_002 lines 28-79): decode the first
2048 bytes, locate end_header, match the vertex count and the property
lines, build the property table with running offsets, resolve the x, y, z
offsets (throwing when any is missing), and resolve the colour offsets
first from the spherical-harmonics DC names and otherwise from the plain
red, green, blue names, with isSphericalHarmonics true exactly when a
property named f_dc_0 exists with declared type float. -/
def parseHeader (buf : List Nat) : Except PlyErr PlyHeader :=
  let hEnd := headerEndOf buf
  match scanVertex (headerTextOf buf) with
  | none => Except.error PlyErr.missingVertexCount
  | some ds =>
    let vertexCount := digitsToNat ds
    let lines := propLinesOf buf
    if lines = [] then Except.error PlyErr.noProperties
    else
      let props := (buildProps lines).1
      let stride := (buildProps lines).2
      match findOffset props kwX, findOffset props kwY, findOffset props kwZ with
      | some ox, some oy, some oz =>
        let r0 := findOffset props kwFdc0
        let isSH := ((props.find? (fun p => p.name = some kwFdc0)).map (fun p => p.type)
          = some kwFloat)
        if r0.isSome then
          Except.ok ⟨hEnd, vertexCount, stride, ox, oy, oz,
            r0, findOffset props kwFdc1, findOffset props kwFdc2, isSH⟩
        else
          Except.ok ⟨hEnd, vertexCount, stride, ox, oy, oz,
            findOffset props kwRed, findOffset props kwGreen, findOffset props kwBlue, false⟩
      | _, _, _ => Except.error PlyErr.missingPositionProps

/-- Absolute byte index where record i starts: the DataView is created at
headerEndIndex and the loop reads at offset i * vertexStride within it. -/
def recBase (h : PlyHeader) (i : Nat) : Nat := h.headerEnd + i * h.stride

/-- DataView.getFloat32 at absolute byte index p: RangeError past the end. -/
def getF32 (buf : List Nat) (p : Nat) : Except PlyErr F32V :=
  match buf.get? p, buf.get? (p + 1), buf.get? (p + 2), buf.get? (p + 3) with
  | some b0, some b1, some b2, some b3 => Except.ok (decodeF32 b0 b1 b2 b3)
  | _, _, _, _ => Except.error PlyErr.rangeError

/-- DataView.getUint8 at absolute byte index p. -/
def getU8 (buf : List Nat) (p : Nat) : Except PlyErr Nat :=
  match buf.get? p with
  | some b => Except.ok b
  | none => Except.error PlyErr.rangeError

/-- Absolute address of a colour read: offset + colorOffsets.g with an
absent offset is NaN in JS, and DataView coerces a NaN byteOffset to 0
(relative to the view, so to headerEnd absolutely). -/
def colAddr (h : PlyHeader) (base : Nat) : Option Nat → Nat
  | some o => base + o
  | none => h.headerEnd

/-- The SH_C0 constant of the loader, 0.28209479177387814. -/
def shC0 : ℚ := mkRat 28209479177387814 (10 ^ 17)

/-- The affine spherical-harmonics DC decode 0.5 + SH_C0 * raw, extended to
the special binary32 values (SH_C0 is positive, so the infinities keep
their sign and NaN propagates). -/
def shDec : F32V → F32V
  | F32V.finite q => F32V.finite (mkRat 1 2 + shC0 * q)
  | F32V.posInf => F32V.posInf
  | F32V.negInf => F32V.negInf
  | F32V.nan => F32V.nan

/-- The per-record colour reads (part_002 lines 94-106): SH float decode
when isSphericalHarmonics, unsigned-byte decode divided by 255 otherwise,
and the white fill when no colour offset was resolved. -/
def readColorAt (buf : List Nat) (h : PlyHeader) (base : Nat) : Except PlyErr (List F32V) :=
  match h.colR with
  | none => Except.ok [F32V.finite 1, F32V.finite 1, F32V.finite 1]
  | some r =>
    if h.isSH then
      match getF32 buf (base + r) with
      | Except.error e => Except.error e
      | Except.ok a =>
        match getF32 buf (colAddr h base h.colG) with
        | Except.error e => Except.error e
        | Except.ok b =>
          match getF32 buf (colAddr h base h.colB) with
          | Except.error e => Except.error e
          | Except.ok c => Except.ok [shDec a, shDec b, shDec c]
    else
      match getU8 buf (base + r) with
      | Except.error e => Except.error e
      | Except.ok a =>
        match getU8 buf (colAddr h base h.colG) with
        | Except.error e => Except.error e
        | Except.ok b =>
          match getU8 buf (colAddr h base h.colB) with
          | Except.error e => Except.error e
          | Except.ok c =>
            Except.ok [F32V.finite (mkRat (a : Int) 255), F32V.finite (mkRat (b : Int) 255),
              F32V.finite (mkRat (c : Int) 255)]

/-- The record-reading loop of parsePLY (lines 87-107): for each record,
three little-endian position floats at the resolved x, y, z offsets, then
the colour triple; the first out-of-range read throws and aborts. -/
def readRecordsAux (buf : List Nat) (h : PlyHeader) :
    Nat → Nat → Except PlyErr (List F32V × List F32V)
  | _, 0 => Except.ok ([], [])
  | i, n + 1 =>
    match getF32 buf (recBase h i + h.ox) with
    | Except.error e => Except.error e
    | Except.ok px =>
      match getF32 buf (recBase h i + h.oy) with
      | Except.error e => Except.error e
      | Except.ok py =>
        match getF32 buf (recBase h i + h.oz) with
        | Except.error e => Except.error e
        | Except.ok pz =>
          match readColorAt buf h (recBase h i) with
          | Except.error e => Except.error e
          | Except.ok cs =>
            match readRecordsAux buf h (i + 1) n with
            | Except.error e => Except.error e
            | Except.ok pr => Except.ok (px :: py :: pz :: pr.1, cs ++ pr.2)

/-- parsePLY: parse the header, then decode vertexCount records; the result
is the pair of the positions and colors arrays (the THREE geometry built
from them afterwards is outside this embedding). -/
def parsePLY (buf : List Nat) : Except PlyErr (List F32V × List F32V) :=
  match parseHeader buf with
  | Except.error e => Except.error e
  | Except.ok h => readRecordsAux buf h 0 h.vertexCount

/-- True exactly on the error (thrown) outcome. -/
def isErrE {ε α : Type} : Except ε α → Bool
  | Except.error _ => true
  | Except.ok _ => false

instance {ε α : Type} [DecidableEq ε] [DecidableEq α] : DecidableEq (Except ε α) := fun a b =>
  match a, b with
  | Except.error x, Except.error y =>
    if h : x = y then Decidable.isTrue (by rw [h])
    else Decidable.isFalse (fun he => by cases he; exact h rfl)
  | Except.error _, Except.ok _ => Decidable.isFalse (fun he => by cases he)
  | Except.ok _, Except.error _ => Decidable.isFalse (fun he => by cases he)
  | Except.ok x, Except.ok y =>
    if h : x = y then Decidable.isTrue (by rw [h])
    else Decidable.isFalse (fun he => by cases he; exact h rfl)

/-- A 3-component vector of exact rationals (THREE.Vector3 and the plain
xyz objects of the scripts). -/
structure Vec3q where
  x : ℚ
  y : ℚ
  z : ℚ
  deriving DecidableEq, Repr

/-- A pose keypoint as delivered by the pose model: a name, pixel
coordinates and a confidence score. -/
structure Keypoint where
  name : List Char
  x : ℚ
  y : ℚ
  score : ℚ
  deriving DecidableEq, Repr

def kwLeftShoulder : List Char :=
  ['l', 'e', 'f', 't', '_', 's', 'h', 'o', 'u', 'l', 'd', 'e', 'r']
def kwRightShoulder : List Char :=
  ['r', 'i', 'g', 'h', 't', '_', 's', 'h', 'o', 'u', 'l', 'd', 'e', 'r']

/-- The external THREE.js camera capability: a world position, the
unprojection of an NDC point through the inverse camera projection, and
the euclidean vector length used by Vector3.normalize (irrational in
general, hence an oracle of the embedding). -/
structure Camera where
  position : Vec3q
  unproject : Vec3q → Vec3q
  vlen : Vec3q → ℚ

/-- The external transcendental Math functions the render loop calls. -/
structure MathOracle where
  hypot : ℚ → ℚ → ℚ
  atan2 : ℚ → ℚ → ℚ

/-- The mutable state the render loop and positionSplat touch: the two
persistent smoothed accumulators, the splat flags and bounding box, and
the transform and visibility last applied to the wings mesh. -/
structure WingsState where
  smoothedPos : Vec3q
  smoothedRot : Vec3q
  splatLoaded : Bool
  hasMesh : Bool
  bbox : Option Vec3q
  meshVisible : Bool
  meshPos : Vec3q
  meshRot : Vec3q
  meshScale : ℚ
  deriving DecidableEq, Repr

/-- SMOOTHING_FACTOR = 0.4, identical in part_002 (line 129) and
script.js (line 48). -/
def smoothingFactor : ℚ := 2 / 5

/-- CAMERA_MODE is the constant string environment in part_002 (line 139),
so every mirror branch for the front camera is off. -/
def cameraModeUser : Bool := false

/-- The per-axis exponential blend smoothed + (target - smoothed) * α
of part_002 lines 372-374 and 388-390 and script.js lines 462-464 and
480-482. -/
def blend (s t : ℚ) : ℚ := s + (t - s) * smoothingFactor

/-- The blend applied independently per axis. -/
def blendV (s t : Vec3q) : Vec3q :=
  ⟨blend s.x t.x, blend s.y t.y, blend s.z t.z⟩

/-- n ticks of the blend against a constant target. -/
def blendIter : Nat → ℚ → ℚ → ℚ
  | 0, s, _ => s
  | n + 1, s, t => blendIter n (blend s t) t

/-- The depth heuristic of renderLoop line 323: depth = -2.0 - (150 / dist).
There is no guard on dist; ℚ division is total with 150 / 0 = 0, and
every theorem that uses this keeps dist nonzero. -/
def depthHeuristic (d : ℚ) : ℚ := -2 - 150 / d

/-- The depth heuristic as the spec words it, with the max(1, d) guard:
depth = -2.0 - (150 / max(1, d)).  Stated only for comparison with
depthHeuristic, which is what the code computes. -/
def specDepthHeuristic (d : ℚ) : ℚ := -2 - 150 / max 1 d

/-- The scale heuristic of renderLoop line 324: max(0.5, dist / 150). -/
def scaleHeuristic (d : ℚ) : ℚ := max (1 / 2) (d / 150)

/-- Screen pixel to normalized device coordinates (positionSplat lines
360-362), with the horizontal flip only in front-camera mode. -/
def ndcOf (videoW videoH sx sy : ℚ) : ℚ × ℚ :=
  let nx := sx / videoW * 2 - 1
  let ny := -(sy / videoH) * 2 + 1
  (if cameraModeUser then -nx else nx, ny)

/-- positionSplat lines 365-369: unproject the NDC point at z = 0.5,
normalize the ray from the camera position (THREE.Vector3.normalize
divides by length() || 1, substituting 1 for a zero length), travel
|depth / dir.z| along it, and add to the camera position. -/
def computeTargetPos (cam : Camera) (nx ny depth : ℚ) : Vec3q :=
  let world := cam.unproject ⟨nx, ny, 1 / 2⟩
  let v : Vec3q := ⟨world.x - cam.position.x, world.y - cam.position.y,
    world.z - cam.position.z⟩
  let len := if cam.vlen v = 0 then 1 else cam.vlen v
  let dir : Vec3q := ⟨v.x / len, v.y / len, v.z / len⟩
  let distance := |depth / dir.z|
  ⟨cam.position.x + dir.x * distance, cam.position.y + dir.y * distance,
    cam.position.z + dir.z * distance⟩

/-- The normalized ray direction from the camera through the unprojected
NDC point, stated in the spec's words for comparison. -/
def rayDir (cam : Camera) (nx ny : ℚ) : Vec3q :=
  let world := cam.unproject ⟨nx, ny, 1 / 2⟩
  let v : Vec3q := ⟨world.x - cam.position.x, world.y - cam.position.y,
    world.z - cam.position.z⟩
  let len := if cam.vlen v = 0 then 1 else cam.vlen v
  ⟨v.x / len, v.y / len, v.z / len⟩

/-- The target world position as the spec words it: cameraPosition +
rayDirection * distance with distance = |depth / rayDirection.z|. -/
def specTargetPos (cam : Camera) (dir : Vec3q) (depth : ℚ) : Vec3q :=
  ⟨cam.position.x + dir.x * |depth / dir.z|,
    cam.position.y + dir.y * |depth / dir.z|,
    cam.position.z + dir.z * |depth / dir.z|⟩

/-- The scale factor before the final guard (positionSplat lines 378-382):
scale * 0.5 as fallback, replaced by (1.5 / avg) * scale when a bounding
box is available with positive average dimension. -/
def computeScaleFactorRaw (bbox : Option Vec3q) (scale : ℚ) : ℚ :=
  let sf := scale * (1 / 2)
  match bbox with
  | none => sf
  | some b =>
    let avg := (b.x + b.y + b.z) / 3
    if 0 < avg then (3 / 2 / avg) * scale else sf

/-- The applied scale factor (line 383 adds the guard): a NaN or
non-positive result is replaced by 1.0.  In this exact-rational embedding
the isNaN branch is vacuous, so the guard is on non-positivity. -/
def computeScaleFactor (bbox : Option Vec3q) (scale : ℚ) : ℚ :=
  let sf := computeScaleFactorRaw bbox scale
  if sf ≤ 0 then 1 else sf

/-- positionSplat of part_002 lines 353-392: shift the spine anchor down
by 0.15 * shoulderDist, convert to NDC, unproject to the target world
position, blend the smoothed position, compute and apply the scale
factor, and blend the smoothed rotation toward the fixed -0.2 pitch and
the muted yaw and roll derived from the body angle. -/
def positionSplat (cam : Camera) (videoW videoH : ℚ) (st : WingsState)
    (spine : ℚ × ℚ) (depth scale angle shoulderDist : ℚ) : WingsState :=
  let spineY := spine.2 + shoulderDist * (3 / 20)
  let n := ndcOf videoW videoH spine.1 spineY
  let target := computeTargetPos cam n.1 n.2 depth
  let sp := blendV st.smoothedPos target
  let sf := computeScaleFactor st.bbox scale
  let bodyRot := if cameraModeUser then -angle else angle
  let rTarget : Vec3q := ⟨-(1 / 5), bodyRot * (1 / 2), bodyRot * (1 / 5)⟩
  let sr := blendV st.smoothedRot rTarget
  { st with
    smoothedPos := sp, meshPos := sp
    meshScale := sf
    smoothedRot := sr, meshRot := sr }

/-- The runtime exception the unguarded part_002 render loop can raise:
reading .score off undefined when a named keypoint is absent. -/
inductive JsErr where
  | typeError
  deriving DecidableEq, Repr

/-- The pose-tracking part of one render-loop tick of part_002 (lines
316-342), given poses[0] (none when no pose was detected).  The keypoint
lookups return undefined when absent; ls.score then throws a TypeError.
The && short-circuits, so an absent right shoulder only throws when the
left score already exceeded the threshold.  On low confidence or no pose
the mesh is hidden (when it exists) and nothing else changes; on the
confident path positionSplat runs (when the splat is loaded) and the
mesh is made visible. -/
def poseTick (M : MathOracle) (cam : Camera) (videoW videoH : ℚ)
    (st : WingsState) (pose? : Option (List Keypoint)) : Except JsErr WingsState :=
  let hide : WingsState := if st.hasMesh then { st with meshVisible := false } else st
  match pose? with
  | none => Except.ok hide
  | some kps =>
    let ls? := kps.find? (fun k => k.name = kwLeftShoulder)
    let rs? := kps.find? (fun k => k.name = kwRightShoulder)
    match ls? with
    | none => Except.error JsErr.typeError
    | some ls =>
      if 2 / 5 < ls.score then
        match rs? with
        | none => Except.error JsErr.typeError
        | some rs =>
          if 2 / 5 < rs.score then
            let dist := M.hypot (rs.x - ls.x) (rs.y - ls.y)
            let depth := depthHeuristic dist
            let scale := scaleHeuristic dist
            let spine : ℚ × ℚ := ((ls.x + rs.x) / 2, (ls.y + rs.y) / 2)
            let angle := M.atan2 (rs.y - ls.y) (rs.x - ls.x)
            if st.splatLoaded && st.hasMesh then
              Except.ok { positionSplat cam videoW videoH st spine depth scale angle dist
                with meshVisible := true }
            else Except.ok st
          else Except.ok hide
      else Except.ok hide

/-- The spec's description of the decoded positions array: for each record
index in file order, the three little-endian floats at the record base
plus the x, y, z field offsets. -/
def positionsPerSpec (buf : List Nat) (h : PlyHeader) : Nat → Nat → List F32V
  | _, 0 => []
  | i, n + 1 =>
    decF32At buf (recBase h i + h.ox) :: decF32At buf (recBase h i + h.oy) ::
      decF32At buf (recBase h i + h.oz) :: positionsPerSpec buf h (i + 1) n

/-- The colour triple of one record as the data-reading branch decodes it,
phrased over total byte reads (the bounds are supplied separately). -/
def colorSpecAt (buf : List Nat) (h : PlyHeader) (base : Nat) : List F32V :=
  match h.colR with
  | none => [F32V.finite 1, F32V.finite 1, F32V.finite 1]
  | some r =>
    if h.isSH then
      [shDec (decF32At buf (base + r)), shDec (decF32At buf (colAddr h base h.colG)),
        shDec (decF32At buf (colAddr h base h.colB))]
    else
      [F32V.finite (mkRat (byteAt buf (base + r) : Int) 255),
        F32V.finite (mkRat (byteAt buf (colAddr h base h.colG) : Int) 255),
        F32V.finite (mkRat (byteAt buf (colAddr h base h.colB) : Int) 255)]

/-- The spec's description of the decoded colors array, record by record. -/
def colorsPerSpec (buf : List Nat) (h : PlyHeader) : Nat → Nat → List F32V
  | _, 0 => []
  | i, n + 1 => colorSpecAt buf h (recBase h i) ++ colorsPerSpec buf h (i + 1) n

/-- All three position reads of record i stay inside the buffer. -/
def posOk (buf : List Nat) (h : PlyHeader) (i : Nat) : Prop :=
  recBase h i + h.ox + 4 ≤ buf.length ∧ recBase h i + h.oy + 4 ≤ buf.length ∧
    recBase h i + h.oz + 4 ≤ buf.length

/-- All colour reads of record i stay inside the buffer. -/
def colOk (buf : List Nat) (h : PlyHeader) (i : Nat) : Prop :=
  match h.colR with
  | none => True
  | some r =>
    if h.isSH then
      recBase h i + r + 4 ≤ buf.length ∧
        colAddr h (recBase h i) h.colG + 4 ≤ buf.length ∧
        colAddr h (recBase h i) h.colB + 4 ≤ buf.length
    else
      recBase h i + r + 1 ≤ buf.length ∧
        colAddr h (recBase h i) h.colG + 1 ≤ buf.length ∧
        colAddr h (recBase h i) h.colB + 1 ≤ buf.length

/-- The parsed properties array, as a named stage of parseHeader. -/
def propsOf (buf : List Nat) : List PlyProp := (buildProps (propLinesOf buf)).1

theorem get?_of_lt (l : List Nat) (p : Nat) (hp : p < l.length) :
    l.get? p = some (byteAt l p) := by
  rw [byteAt, List.getD_eq_getD_get?]
  cases hq : l.get? p with
  | none => exact absurd (List.get?_eq_none.mp hq) (by omega)
  | some b => rfl

theorem getF32_of_le (buf : List Nat) (p : Nat) (hp : p + 4 ≤ buf.length) :
    getF32 buf p = Except.ok (decF32At buf p) := by
  rw [getF32, get?_of_lt _ _ (by omega), get?_of_lt _ _ (by omega),
    get?_of_lt _ _ (by omega), get?_of_lt _ _ (by omega)]
  rfl

theorem getU8_of_le (buf : List Nat) (p : Nat) (hp : p + 1 ≤ buf.length) :
    getU8 buf p = Except.ok (byteAt buf p) := by
  rw [getU8, get?_of_lt _ _ (by omega)]

theorem getF32_ok_le (buf : List Nat) (p : Nat) (v : F32V)
    (h : getF32 buf p = Except.ok v) : p + 4 ≤ buf.length := by
  rw [getF32] at h
  cases h0 : buf.get? p <;> rw [h0] at h
  · cases h
  cases h1 : buf.get? (p + 1) <;> rw [h1] at h
  · cases h
  cases h2 : buf.get? (p + 2) <;> rw [h2] at h
  · cases h
  cases h3 : buf.get? (p + 3) <;> rw [h3] at h
  · cases h
  have := (List.get?_eq_some.mp h3).1
  omega

theorem readColorAt_of_ok (buf : List Nat) (h : PlyHeader) (i : Nat)
    (hc : colOk buf h i) :
    readColorAt buf h (recBase h i) = Except.ok (colorSpecAt buf h (recBase h i)) := by
  rw [readColorAt, colorSpecAt]
  rw [colOk] at hc
  cases hr : h.colR with
  | none => rfl
  | some r =>
    rw [hr] at hc
    by_cases hsh : h.isSH
    · simp only [hsh, if_true] at hc ⊢
      rw [getF32_of_le _ _ hc.1, getF32_of_le _ _ hc.2.1, getF32_of_le _ _ hc.2.2]
    · simp only [Bool.not_eq_true] at hsh
      simp only [hsh, Bool.false_eq_true, if_false] at hc ⊢
      rw [getU8_of_le _ _ hc.1, getU8_of_le _ _ hc.2.1, getU8_of_le _ _ hc.2.2]

theorem readRecordsAux_of_ok (buf : List Nat) (h : PlyHeader) :
    ∀ n i, (∀ j, j < n → posOk buf h (i + j) ∧ colOk buf h (i + j)) →
      readRecordsAux buf h i n =
        Except.ok (positionsPerSpec buf h i n, colorsPerSpec buf h i n) := by
  intro n
  induction n with
  | zero => intro i _; rfl
  | succ n ih =>
    intro i hb
    have h0 := hb 0 (by omega)
    rw [Nat.add_zero] at h0
    obtain ⟨⟨hx, hy, hz⟩, hcol⟩ := h0
    rw [readRecordsAux, getF32_of_le _ _ (by omega), getF32_of_le _ _ (by omega),
      getF32_of_le _ _ (by omega), readColorAt_of_ok _ _ _ hcol,
      ih (i + 1) (fun j hj => by
        have := hb (j + 1) (by omega)
        rwa [show i + (j + 1) = i + 1 + j by omega] at this)]
    rfl

theorem readRecordsAux_ok_le (buf : List Nat) (h : PlyHeader) :
    ∀ n i pr, readRecordsAux buf h i n = Except.ok pr →
      ∀ j, j < n → recBase h (i + j) + h.ox + 4 ≤ buf.length := by
  intro n
  induction n with
  | zero => intro i pr _ j hj; omega
  | succ n ih =>
    intro i pr hok j hj
    rw [readRecordsAux] at hok
    cases h0 : getF32 buf (recBase h i + h.ox) <;> rw [h0] at hok
    · cases hok
    cases h1 : getF32 buf (recBase h i + h.oy) <;> rw [h1] at hok
    · cases hok
    cases h2 : getF32 buf (recBase h i + h.oz) <;> rw [h2] at hok
    · cases hok
    cases h3 : readColorAt buf h (recBase h i) <;> rw [h3] at hok
    · cases hok
    cases h4 : readRecordsAux buf h (i + 1) n <;> rw [h4] at hok
    · cases hok
    rcases Nat.eq_zero_or_pos j with hj0 | hjp
    · subst hj0
      rw [Nat.add_zero]
      exact getF32_ok_le _ _ _ h0
    · obtain ⟨k, rfl⟩ : ∃ k, j = k + 1 := ⟨j - 1, by omega⟩
      have hk := ih (i + 1) _ h4 k (by omega)
      rwa [show i + 1 + k = i + (k + 1) by omega] at hk

theorem positionsPerSpec_length (buf : List Nat) (h : PlyHeader) :
    ∀ n i, (positionsPerSpec buf h i n).length = 3 * n := by
  intro n
  induction n with
  | zero => intro i; rfl
  | succ n ih =>
    intro i
    rw [positionsPerSpec]
    simp only [List.length_cons, ih (i + 1)]
    omega

theorem colorSpecAt_length (buf : List Nat) (h : PlyHeader) (base : Nat) :
    (colorSpecAt buf h base).length = 3 := by
  rw [colorSpecAt]
  cases h.colR with
  | none => rfl
  | some r =>
    by_cases hsh : h.isSH
    · simp [hsh]
    · simp only [Bool.not_eq_true] at hsh
      simp [hsh]

theorem colorsPerSpec_length (buf : List Nat) (h : PlyHeader) :
    ∀ n i, (colorsPerSpec buf h i n).length = 3 * n := by
  intro n
  induction n with
  | zero => intro i; rfl
  | succ n ih =>
    intro i
    rw [colorsPerSpec]
    simp only [List.length_append, colorSpecAt_length, ih (i + 1)]
    omega

theorem positionsPerSpec_get (buf : List Nat) (h : PlyHeader) :
    ∀ n i j, j < n →
      (positionsPerSpec buf h i n).get? (3 * j)
          = some (decF32At buf (recBase h (i + j) + h.ox)) ∧
      (positionsPerSpec buf h i n).get? (3 * j + 1)
          = some (decF32At buf (recBase h (i + j) + h.oy)) ∧
      (positionsPerSpec buf h i n).get? (3 * j + 2)
          = some (decF32At buf (recBase h (i + j) + h.oz)) := by
  intro n
  induction n with
  | zero => intro i j hj; omega
  | succ n ih =>
    intro i j hj
    rcases Nat.eq_zero_or_pos j with hj0 | hjp
    · subst hj0
      exact ⟨rfl, rfl, rfl⟩
    · obtain ⟨k, rfl⟩ : ∃ k, j = k + 1 := ⟨j - 1, by omega⟩
      have hk := ih (i + 1) k (by omega)
      rw [show i + 1 + k = i + (k + 1) by omega] at hk
      rw [positionsPerSpec]
      rw [show 3 * (k + 1) = (3 * k + 2) + 1 by omega]
      simp only [List.get?_cons_succ]
      exact ⟨hk.1, hk.2.1, hk.2.2⟩

theorem colorsPerSpec_get (buf : List Nat) (h : PlyHeader) :
    ∀ n i j k, j < n → k < 3 →
      (colorsPerSpec buf h i n).get? (3 * j + k)
        = (colorSpecAt buf h (recBase h (i + j))).get? k := by
  intro n
  induction n with
  | zero => intro i j k hj hk; omega
  | succ n ih =>
    intro i j k hj hk
    rw [colorsPerSpec]
    rcases Nat.eq_zero_or_pos j with hj0 | hjp
    · subst hj0
      rw [Nat.mul_zero, Nat.zero_add, Nat.add_zero]
      exact List.get?_append (by rw [colorSpecAt_length]; omega)
    · obtain ⟨m, rfl⟩ : ∃ m, j = m + 1 := ⟨j - 1, by omega⟩
      rw [List.get?_append_right (by rw [colorSpecAt_length]; omega)]
      rw [colorSpecAt_length, show 3 * (m + 1) + k - 3 = 3 * m + k by omega]
      rw [ih (i + 1) m k (by omega) hk, show i + 1 + m = i + (m + 1) by omega]

theorem colorsPerSpec_white (buf : List Nat) (h : PlyHeader) (hc : h.colR = none) :
    ∀ n i, colorsPerSpec buf h i n = List.replicate (3 * n) (F32V.finite 1) := by
  intro n
  induction n with
  | zero => intro i; rfl
  | succ n ih =>
    intro i
    rw [colorsPerSpec, show 3 * (n + 1) = 3 + 3 * n by omega, List.replicate_add,
      ih (i + 1), colorSpecAt, hc]
    rfl

theorem tryPropAt_some (s m rest : List Char) (h : tryPropAt s = some (m, rest)) :
    ∃ run, m = kwPropSp ++ run ∧ run ≠ [] ∧ run.length + 9 ≤ s.length ∧
      rest.length + 9 ≤ s.length := by
  rw [tryPropAt] at h
  by_cases hp : kwPropSp.isPrefixOf s
  · simp only [hp, if_true] at h
    by_cases hr : (s.drop 9).takeWhile isDotChar = []
    · simp [hr] at h
    · simp only [hr, if_false, Option.some_inj, Prod.mk.injEq] at h
      obtain ⟨hm, hrest⟩ := h
      have hlen9 : 9 ≤ s.length := by
        have := (List.isPrefixOf_iff_prefix.mp hp).length_le
        simpa [kwPropSp] using this
      have htw : ((s.drop 9).takeWhile isDotChar).length ≤ s.length - 9 := by
        have := List.Sublist.length_le (List.takeWhile_sublist isDotChar (l := s.drop 9))
        simpa [List.length_drop] using this
      refine ⟨(s.drop 9).takeWhile isDotChar, hm.symm, hr, by omega, ?_⟩
      have : rest.length = s.length - 9 - ((s.drop 9).takeWhile isDotChar).length := by
        rw [← hrest]
        simp only [List.length_drop]
      omega
  · simp [hp] at h

theorem matchPropLinesAux_mem :
    ∀ fuel s m, m ∈ matchPropLinesAux fuel s →
      ∃ run, m = kwPropSp ++ run ∧ run ≠ [] ∧ run.length + 9 ≤ s.length := by
  intro fuel
  induction fuel with
  | zero => intro s m hm; simp [matchPropLinesAux] at hm
  | succ n ih =>
    intro s m hm
    simp only [matchPropLinesAux] at hm
    cases ht : tryPropAt s with
    | some pr =>
      rw [ht] at hm
      obtain ⟨run, hrun⟩ := tryPropAt_some s pr.1 pr.2 (by rw [ht])
      rcases List.mem_cons.mp hm with hm0 | hm1
      · exact ⟨run, by rw [hm0]; exact hrun.1, hrun.2.1, hrun.2.2.1⟩
      · obtain ⟨run2, h1, h2, h3⟩ := ih pr.2 m hm1
        exact ⟨run2, h1, h2, by have := hrun.2.2.2; omega⟩
    | none =>
      rw [ht] at hm
      cases s with
      | nil => simp at hm
      | cons c cs =>
        obtain ⟨run2, h1, h2, h3⟩ := ih cs m hm
        exact ⟨run2, h1, h2, by simp only [List.length_cons]; omega⟩

theorem typeSize_short (l : List Char) (hl : l.length ≤ 1) : typeSize l = none := by
  have h1 : l ≠ kwFloat := fun h => by subst h; simp [kwFloat] at hl
  have h2 : l ≠ kwDouble := fun h => by subst h; simp [kwDouble] at hl
  have h3 : l ≠ kwUchar := fun h => by subst h; simp [kwUchar] at hl
  have h4 : l ≠ kwInt := fun h => by subst h; simp [kwInt] at hl
  simp [typeSize, h1, h2, h3, h4]

theorem splitProp_get1 (c : Char) :
    ∃ l, (splitOnChar ' ' (kwPropSp ++ [c])).get? 1 = some l ∧ l.length ≤ 1 := by
  by_cases hc : c = ' '
  · subst hc
    exact ⟨[], by with_unfolding_all rfl, by simp⟩
  · refine ⟨[c], ?_, by simp⟩
    show (splitOnChar ' ' ['p', 'r', 'o', 'p', 'e', 'r', 't', 'y', ' ', c]).get? 1 = some [c]
    simp only [splitOnChar, hc, if_false, reduceIte]
    rfl

theorem buildProps_short (lines : List (List Char))
    (hl : ∀ m ∈ lines, ∃ c, m = kwPropSp ++ [c]) :
    buildProps lines = ([], 0) := by
  have key : ∀ acc : List PlyProp × Nat, lines.foldl
      (fun acc line =>
        let parts := splitOnChar ' ' line
        match parts.get? 1 with
        | some ty =>
          match typeSize ty with
          | some sz => (acc.1 ++ [⟨parts.get? 2, ty, acc.2⟩], acc.2 + sz)
          | none => acc
        | none => acc)
      acc = acc := by
    induction lines with
    | nil => intro acc; rfl
    | cons m ms ihm =>
      intro acc
      obtain ⟨c, hc⟩ := hl m (List.mem_cons_self m ms)
      obtain ⟨l, hget, hlen⟩ := splitProp_get1 c
      rw [List.foldl_cons]
      have hstep : (match (splitOnChar ' ' m).get? 1 with
          | some ty =>
            match typeSize ty with
            | some sz => (acc.1 ++ [(⟨(splitOnChar ' ' m).get? 2, ty, acc.2⟩ : PlyProp)], acc.2 + sz)
            | none => acc
          | none => acc) = acc := by
        rw [hc, hget]
        simp only [typeSize_short l hlen]
      rw [hstep]
      exact ihm (fun x hx => hl x (List.mem_cons_of_mem m hx)) acc
  rw [buildProps, key]

theorem headerEndOf_absent (buf : List Nat)
    (hm : indexOfSub kwEndHeader (headerTextOf buf) = none) : headerEndOf buf = 10 := by
  rw [headerEndOf, hm]

theorem buildProps_absent (buf : List Nat)
    (hm : indexOfSub kwEndHeader (headerTextOf buf) = none) :
    buildProps (propLinesOf buf) = ([], 0) := by
  apply buildProps_short
  intro m hmem
  rw [propLinesOf, matchPropLines] at hmem
  obtain ⟨run, h1, h2, h3⟩ := matchPropLinesAux_mem _ _ _ hmem
  have hs : ((headerTextOf buf).take (headerEndOf buf)).length ≤ 10 := by
    rw [headerEndOf_absent buf hm]
    simp [List.length_take]
  have hr1 : run.length = 1 := by
    have := List.length_pos.mpr h2
    omega
  obtain ⟨c, rfl⟩ := List.length_eq_one.mp hr1
  exact ⟨c, h1⟩

theorem parsePLY_absent (buf : List Nat)
    (hm : indexOfSub kwEndHeader (headerTextOf buf) = none) :
    parsePLY buf = Except.error PlyErr.missingVertexCount ∨
      parsePLY buf = Except.error PlyErr.noProperties ∨
      parsePLY buf = Except.error PlyErr.missingPositionProps := by
  have hbp := buildProps_absent buf hm
  rw [parsePLY, parseHeader]
  cases hsv : scanVertex (headerTextOf buf) with
  | none => exact Or.inl rfl
  | some ds =>
    by_cases hL : propLinesOf buf = []
    · refine Or.inr (Or.inl ?_)
      simp only [hL, if_true, reduceIte]
    · refine Or.inr (Or.inr ?_)
      simp only [hL, if_false, reduceIte]
      rw [hbp]
      rfl

theorem parsePLY_of_header (buf : List Nat) (hd : PlyHeader)
    (hph : parseHeader buf = Except.ok hd)
    (hb : ∀ j, j < hd.vertexCount → posOk buf hd j ∧ colOk buf hd j) :
    parsePLY buf = Except.ok (positionsPerSpec buf hd 0 hd.vertexCount,
      colorsPerSpec buf hd 0 hd.vertexCount) := by
  rw [parsePLY, hph]
  exact readRecordsAux_of_ok buf hd hd.vertexCount 0
    (fun j hj => by rw [Nat.zero_add]; exact hb j hj)

theorem posOk_of_global (buf : List Nat) (hd : PlyHeader) (j : Nat)
    (hj : j < hd.vertexCount) (hx : hd.ox + 4 ≤ hd.stride) (hy : hd.oy + 4 ≤ hd.stride)
    (hz : hd.oz + 4 ≤ hd.stride)
    (hlen : hd.headerEnd + hd.vertexCount * hd.stride ≤ buf.length) :
    posOk buf hd j := by
  have h1 : (j + 1) * hd.stride ≤ hd.vertexCount * hd.stride :=
    Nat.mul_le_mul_right _ (by omega)
  have h2 : j * hd.stride + hd.stride = (j + 1) * hd.stride := by ring
  rw [posOk, recBase]
  omega

theorem colOk_none (buf : List Nat) (hd : PlyHeader) (j : Nat) (hcr : hd.colR = none) :
    colOk buf hd j := by
  rw [colOk, hcr]
  trivial

theorem colOk_sh_of_global (buf : List Nat) (hd : PlyHeader) (j : Nat) (r g b : Nat)
    (hj : j < hd.vertexCount) (hr : hd.colR = some r) (hg : hd.colG = some g)
    (hb : hd.colB = some b) (hsh : hd.isSH = true)
    (h4r : r + 4 ≤ hd.stride) (h4g : g + 4 ≤ hd.stride) (h4b : b + 4 ≤ hd.stride)
    (hlen : hd.headerEnd + hd.vertexCount * hd.stride ≤ buf.length) :
    colOk buf hd j := by
  have h1 : (j + 1) * hd.stride ≤ hd.vertexCount * hd.stride :=
    Nat.mul_le_mul_right _ (by omega)
  have h2 : j * hd.stride + hd.stride = (j + 1) * hd.stride := by ring
  rw [colOk, hr]
  simp only [hsh, if_true, hg, hb, colAddr, recBase]
  omega

theorem colOk_byte_of_global (buf : List Nat) (hd : PlyHeader) (j : Nat) (r g b : Nat)
    (hj : j < hd.vertexCount) (hr : hd.colR = some r) (hg : hd.colG = some g)
    (hb : hd.colB = some b) (hsh : hd.isSH = false)
    (h1r : r + 1 ≤ hd.stride) (h1g : g + 1 ≤ hd.stride) (h1b : b + 1 ≤ hd.stride)
    (hlen : hd.headerEnd + hd.vertexCount * hd.stride ≤ buf.length) :
    colOk buf hd j := by
  have h1 : (j + 1) * hd.stride ≤ hd.vertexCount * hd.stride :=
    Nat.mul_le_mul_right _ (by omega)
  have h2 : j * hd.stride + hd.stride = (j + 1) * hd.stride := by ring
  rw [colOk, hr]
  simp only [hsh, Bool.false_eq_true, if_false, hg, hb, colAddr, recBase]
  omega

/-- C2 (amended): for a constant target, the per-axis blend
smoothed + (target - smoothed) * 0.4 is the identity at the target, the
error after n ticks is exactly (3/5)^n times the initial error (so each
tick shrinks it by the fixed factor 1 - α = 0.6 and the smoothed value
approaches the target monotonically), and the distance to the target
never increases from one tick to the next. -/
theorem blendIter_sub_target : ∀ (n : Nat) (s t : ℚ),
    blendIter n s t - t = (3 / 5) ^ n * (s - t) := by
  intro n
  induction n with
  | zero => intro s t; simp [blendIter]
  | succ n ih =>
    intro s t
    rw [blendIter, ih (blend s t) t, blend, smoothingFactor]
    ring

theorem c2_theorem :
    (∀ t : ℚ, blend t t = t) ∧
    (∀ (n : Nat) (s t : ℚ), blendIter n s t - t = (3 / 5) ^ n * (s - t)) ∧
    (∀ (n : Nat) (s t : ℚ), |blendIter (n + 1) s t - t| ≤ |blendIter n s t - t|) := by
  refine ⟨fun t => by rw [blend]; ring, blendIter_sub_target, ?_⟩
  intro n s t
  rw [blendIter_sub_target, blendIter_sub_target, pow_succ]
  calc |(3 / 5 : ℚ) ^ n * (3 / 5) * (s - t)|
      = |(3 / 5 : ℚ) ^ n| * (3 / 5) * |s - t| := by
        rw [abs_mul, abs_mul, abs_of_nonneg (by norm_num : (0 : ℚ) ≤ 3 / 5)]
    _ ≤ |(3 / 5 : ℚ) ^ n| * 1 * |s - t| := by gcongr; norm_num
    _ = |(3 / 5 : ℚ) ^ n * (s - t)| := by rw [mul_one, ← abs_mul]

/-- C2 counterexample: starting from smoothed 0 and constant target 1,
twenty ticks of the α = 0.4 blend leave the smoothed value at exact
distance (3/5)^20 ≈ 3.66e-5 from the target, which is far larger than the
double-precision machine epsilon 2^-52, so the smoothed value has not
reached within floating-point epsilon of the target within 20 ticks. -/
theorem c2_counterexample :
    |blendIter 20 0 1 - 1| = (3 / 5 : ℚ) ^ 20 ∧ ((3 / 5 : ℚ) ^ 20) > (1 / 2) ^ 52 := by
  constructor
  · rw [blendIter_sub_target 20 0 1, show (0 : ℚ) - 1 = -1 by norm_num, mul_neg_one,
      abs_neg, abs_of_nonneg (by positivity)]
  · norm_num

/-- C4: with a positive average bounding-box dimension avg and positive
subject scale s, the applied scale factor is (1.5 / avg) * s; doubling
every bounding-box component exactly halves the applied factor; and
whenever the computed (pre-guard) scale factor is non-positive the
applied factor is replaced by 1.0.  (In this exact-rational embedding the
computed factor is always finite, so the non-finite half of the guard in
the claim is vacuous; the code tests isNaN(scaleFactor) || scaleFactor <= 0.) -/
theorem c4_theorem (b : Vec3q) (s : ℚ)
    (havg : 0 < (b.x + b.y + b.z) / 3) (hs : 0 < s) :
    computeScaleFactor (some b) s = 3 / 2 / ((b.x + b.y + b.z) / 3) * s ∧
    computeScaleFactor (some ⟨2 * b.x, 2 * b.y, 2 * b.z⟩) s
        = computeScaleFactor (some b) s / 2 ∧
    (∀ (bb : Option Vec3q) (sc : ℚ), computeScaleFactorRaw bb sc ≤ 0 →
      computeScaleFactor bb sc = 1) := by
  have havg0 : (b.x + b.y + b.z) / 3 ≠ 0 := ne_of_gt havg
  have hraw : computeScaleFactorRaw (some b) s = 3 / 2 / ((b.x + b.y + b.z) / 3) * s := by
    simp only [computeScaleFactorRaw, if_pos havg]
  have hpos : 0 < 3 / 2 / ((b.x + b.y + b.z) / 3) * s :=
    mul_pos (div_pos (by norm_num) havg) hs
  have happ : computeScaleFactor (some b) s = 3 / 2 / ((b.x + b.y + b.z) / 3) * s := by
    simp only [computeScaleFactor, hraw]
    rw [if_neg (not_le.mpr hpos)]
  have havg2 : ((⟨2 * b.x, 2 * b.y, 2 * b.z⟩ : Vec3q).x + (⟨2 * b.x, 2 * b.y, 2 * b.z⟩ : Vec3q).y
      + (⟨2 * b.x, 2 * b.y, 2 * b.z⟩ : Vec3q).z) / 3 = 2 * ((b.x + b.y + b.z) / 3) := by
    show (2 * b.x + 2 * b.y + 2 * b.z) / 3 = 2 * ((b.x + b.y + b.z) / 3)
    ring
  have hpos2 : (0 : ℚ) < 2 * ((b.x + b.y + b.z) / 3) := by linarith
  have hraw2 : computeScaleFactorRaw (some ⟨2 * b.x, 2 * b.y, 2 * b.z⟩) s
      = 3 / 2 / (2 * ((b.x + b.y + b.z) / 3)) * s := by
    simp only [computeScaleFactorRaw, havg2, if_pos hpos2]
  have hv2 : 0 < 3 / 2 / (2 * ((b.x + b.y + b.z) / 3)) * s :=
    mul_pos (div_pos (by norm_num) hpos2) hs
  refine ⟨happ, ?_, ?_⟩
  · simp only [computeScaleFactor, hraw2, hraw]
    rw [if_neg (not_le.mpr hv2), if_neg (not_le.mpr hpos)]
    field_simp
    ring
  · intro bb sc hle
    simp only [computeScaleFactor]
    rw [if_pos hle]

/-- C4 witness at bounding box (1, 2, 3) and subject scale 2. -/
theorem c4_witness :
    computeScaleFactor (some ⟨1, 2, 3⟩) 2
        = 3 / 2 / (((1 : ℚ) + 2 + 3) / 3) * 2 ∧
    computeScaleFactor (some ⟨2 * 1, 2 * 2, 2 * 3⟩) 2
        = computeScaleFactor (some ⟨1, 2, 3⟩) 2 / 2 ∧
    (∀ (bb : Option Vec3q) (sc : ℚ), computeScaleFactorRaw bb sc ≤ 0 →
      computeScaleFactor bb sc = 1) :=
  c4_theorem ⟨1, 2, 3⟩ 2 (of_decide_eq_true (by with_unfolding_all rfl))
    (of_decide_eq_true (by with_unfolding_all rfl))

/-- C3: when both shoulder keypoints are present but either confidence
score is at or below the 0.4 threshold, the tick performs no update: the
overlay mesh is hidden and the resulting state is the previous state with
only meshVisible cleared, so every component of the persistent smoothed
position and rotation survives the tick unchanged (no reset). -/
theorem c3_theorem (M : MathOracle) (cam : Camera) (w h : ℚ) (st : WingsState)
    (kps : List Keypoint) (ls rs : Keypoint)
    (hl : kps.find? (fun k => k.name = kwLeftShoulder) = some ls)
    (hr : kps.find? (fun k => k.name = kwRightShoulder) = some rs)
    (hscore : ls.score ≤ 2 / 5 ∨ rs.score ≤ 2 / 5)
    (hm : st.hasMesh = true) :
    poseTick M cam w h st (some kps) = Except.ok { st with meshVisible := false } := by
  simp only [poseTick, hl, hr]
  rcases hscore with hs | hs
  · rw [if_neg (not_lt.mpr hs)]
    simp [hm]
  · by_cases hls : 2 / 5 < ls.score
    · rw [if_pos hls, if_neg (not_lt.mpr hs)]
      simp [hm]
    · rw [if_neg hls]
      simp [hm]

/-- Concrete external-capability fixtures for the closed instances: a
Math oracle whose hypot is exact on axis-aligned differences, a camera at
the origin whose unprojection capability returns the forward point
(0, 0, 1), and a session state with the splat loaded. -/
def wOracle : MathOracle := ⟨fun a b => |a| + |b|, fun _ _ => 0⟩

def wCam : Camera := ⟨⟨0, 0, 0⟩, fun _ => ⟨0, 0, 1⟩, fun _ => 1⟩

def wSt : WingsState :=
  ⟨⟨0, 0, 0⟩, ⟨0, 0, 0⟩, true, true, some ⟨1, 1, 1⟩, true, ⟨0, 0, 0⟩, ⟨0, 0, 0⟩, 1⟩

def kpsLow : List Keypoint :=
  [⟨kwLeftShoulder, 100, 100, 1 / 10⟩, ⟨kwRightShoulder, 200, 120, 9 / 10⟩]

/-- C3 witness: a left-shoulder score of 0.1 hides the overlay and leaves
the smoothed state untouched. -/
theorem c3_witness : poseTick wOracle wCam 1280 720 wSt (some kpsLow)
    = Except.ok { wSt with meshVisible := false } :=
  c3_theorem wOracle wCam 1280 720 wSt kpsLow
    ⟨kwLeftShoulder, 100, 100, 1 / 10⟩ ⟨kwRightShoulder, 200, 120, 9 / 10⟩
    (by with_unfolding_all rfl) (by with_unfolding_all rfl)
    (Or.inl (of_decide_eq_true (by with_unfolding_all rfl))) rfl

/-- C7 (amended): provided both named shoulder keypoints are present in
the pose frame, extracting them and running the tick never raises an
exception: every control path returns a normal result (the low-confidence
sentinel hides the overlay, see c3_theorem).  When a named shoulder
keypoint is absent, part_002 reads .score off undefined and throws a
TypeError instead of signalling a sentinel (see c7_counterexample);
script.js guards the same extraction with existence checks. -/
theorem c7_theorem (M : MathOracle) (cam : Camera) (w h : ℚ) (st : WingsState)
    (kps : List Keypoint) (ls rs : Keypoint)
    (hl : kps.find? (fun k => k.name = kwLeftShoulder) = some ls)
    (hr : kps.find? (fun k => k.name = kwRightShoulder) = some rs) :
    isErrE (poseTick M cam w h st (some kps)) = false := by
  simp only [poseTick, hl, hr]
  by_cases hls : 2 / 5 < ls.score
  · rw [if_pos hls]
    by_cases hrs : 2 / 5 < rs.score
    · rw [if_pos hrs]
      by_cases hsm : (st.splatLoaded && st.hasMesh) = true
      · rw [if_pos hsm]; rfl
      · rw [if_neg hsm]; rfl
    · rw [if_neg hrs]; rfl
  · rw [if_neg hls]; rfl

/-- C7 witness: with both shoulders present (at any scores) the tick
returns normally. -/
theorem c7_witness : isErrE (poseTick wOracle wCam 1280 720 wSt (some kpsLow)) = false :=
  c7_theorem wOracle wCam 1280 720 wSt kpsLow
    ⟨kwLeftShoulder, 100, 100, 1 / 10⟩ ⟨kwRightShoulder, 200, 120, 9 / 10⟩
    (by with_unfolding_all rfl) (by with_unfolding_all rfl)

def kpsNoLeft : List Keypoint := [⟨['n', 'o', 's', 'e'], 640, 100, 99 / 100⟩]

/-- C7 counterexample: a pose frame without a left_shoulder keypoint makes
the part_002 extraction throw a TypeError (ls.score on undefined) rather
than signal insufficient tracking, refuting the claim that extraction
never raises. -/
theorem c7_counterexample :
    poseTick wOracle wCam 1280 720 wSt (some kpsNoLeft) = Except.error JsErr.typeError := by
  with_unfolding_all rfl

/-- C1 (amended): on a confident tick with detected shoulders at pixel
distance d > 0, the engine computes the depth heuristic
depth = -2.0 - 150 / d, with no max(1, d) guard (for d ≥ 1 this agrees
with the claimed -2.0 - 150 / max(1, d); for 0 < d < 1 it does not, see
c1_counterexample), then runs positionSplat, whose smoothed position
blends toward the target computed from the unprojected NDC point
(nx, ny, 0.5): the target is cameraPosition + rayDirection * distance
with distance = |depth / rayDirection.z| along the normalized ray, with
no epsilon guard on rayDirection.z. -/
theorem c1_theorem (M : MathOracle) (cam : Camera) (w h : ℚ) (st : WingsState)
    (kps : List Keypoint) (ls rs : Keypoint) (d : ℚ)
    (hl : kps.find? (fun k => k.name = kwLeftShoulder) = some ls)
    (hr : kps.find? (fun k => k.name = kwRightShoulder) = some rs)
    (hls : 2 / 5 < ls.score) (hrs : 2 / 5 < rs.score)
    (hsp : st.splatLoaded = true) (hm : st.hasMesh = true)
    (hd : M.hypot (rs.x - ls.x) (rs.y - ls.y) = d) (hd0 : 0 < d) :
    poseTick M cam w h st (some kps) = Except.ok
      { positionSplat cam w h st ((ls.x + rs.x) / 2, (ls.y + rs.y) / 2)
          (depthHeuristic d) (scaleHeuristic d) (M.atan2 (rs.y - ls.y) (rs.x - ls.x)) d
        with meshVisible := true } ∧
    depthHeuristic d = -2 - 150 / d ∧
    (1 ≤ d → depthHeuristic d = specDepthHeuristic d) ∧
    (∀ nx ny dep : ℚ, computeTargetPos cam nx ny dep
        = specTargetPos cam (rayDir cam nx ny) dep) ∧
    (positionSplat cam w h st ((ls.x + rs.x) / 2, (ls.y + rs.y) / 2)
          (depthHeuristic d) (scaleHeuristic d) (M.atan2 (rs.y - ls.y) (rs.x - ls.x)) d).smoothedPos
      = blendV st.smoothedPos (computeTargetPos cam
          (ndcOf w h ((ls.x + rs.x) / 2) ((ls.y + rs.y) / 2 + d * (3 / 20))).1
          (ndcOf w h ((ls.x + rs.x) / 2) ((ls.y + rs.y) / 2 + d * (3 / 20))).2
          (depthHeuristic d)) := by
  refine ⟨?_, rfl, ?_, fun nx ny dep => rfl, rfl⟩
  · simp only [poseTick, hl, hr, hd]
    rw [if_pos hls, if_pos hrs]
    rw [if_pos (by rw [hsp, hm]; rfl : (st.splatLoaded && st.hasMesh) = true)]
  · intro h1
    rw [depthHeuristic, specDepthHeuristic, max_eq_right h1]

def kpsWide : List Keypoint :=
  [⟨kwLeftShoulder, 0, 0, 1⟩, ⟨kwRightShoulder, 5, 0, 1⟩]

/-- C1 witness at shoulder distance d = 5 (shoulders (0,0) and (5,0),
where the hypot oracle is exact). -/
theorem c1_witness :
    poseTick wOracle wCam 1280 720 wSt (some kpsWide) = Except.ok
      { positionSplat wCam 1280 720 wSt (((0 : ℚ) + 5) / 2, ((0 : ℚ) + 0) / 2)
          (depthHeuristic 5) (scaleHeuristic 5) (wOracle.atan2 ((0 : ℚ) - 0) ((5 : ℚ) - 0)) 5
        with meshVisible := true } ∧
    depthHeuristic 5 = -2 - 150 / 5 ∧
    ((1 : ℚ) ≤ 5 → depthHeuristic 5 = specDepthHeuristic 5) ∧
    (∀ nx ny dep : ℚ, computeTargetPos wCam nx ny dep
        = specTargetPos wCam (rayDir wCam nx ny) dep) ∧
    (positionSplat wCam 1280 720 wSt (((0 : ℚ) + 5) / 2, ((0 : ℚ) + 0) / 2)
          (depthHeuristic 5) (scaleHeuristic 5) (wOracle.atan2 ((0 : ℚ) - 0) ((5 : ℚ) - 0)) 5).smoothedPos
      = blendV wSt.smoothedPos (computeTargetPos wCam
          (ndcOf 1280 720 (((0 : ℚ) + 5) / 2) (((0 : ℚ) + 0) / 2 + 5 * (3 / 20))).1
          (ndcOf 1280 720 (((0 : ℚ) + 5) / 2) (((0 : ℚ) + 0) / 2 + 5 * (3 / 20))).2
          (depthHeuristic 5)) :=
  c1_theorem wOracle wCam 1280 720 wSt kpsWide
    ⟨kwLeftShoulder, 0, 0, 1⟩ ⟨kwRightShoulder, 5, 0, 1⟩ 5
    (by with_unfolding_all rfl) (by with_unfolding_all rfl)
    (of_decide_eq_true (by with_unfolding_all rfl))
    (of_decide_eq_true (by with_unfolding_all rfl)) rfl rfl
    (by with_unfolding_all rfl) (of_decide_eq_true (by with_unfolding_all rfl))

def kpsHalf : List Keypoint :=
  [⟨kwLeftShoulder, 0, 0, 1⟩, ⟨kwRightShoulder, 1 / 2, 0, 1⟩]

/-- C1 counterexample: at shoulder pixel distance d = 1/2 the engine's
depth is -2 - 150 / (1/2) = -302, while the claimed formula with the
max(1, d) guard gives -152; with the camera fixture whose normalized ray
is (0, 0, 1), the tick moves the zero-initialized smoothed z to
0.4 * 302 = 604/5, not the 0.4 * 152 the claimed formula would give, so
the claim as stated is false on the code. -/
theorem c1_counterexample :
    depthHeuristic (1 / 2) = -302 ∧
    specDepthHeuristic (1 / 2) = -152 ∧
    (poseTick wOracle wCam 640 480 wSt (some kpsHalf)).toOption.map
        (fun s2 => s2.smoothedPos.z) = some (2 / 5 * |depthHeuristic (1 / 2)|) ∧
    (2 / 5 : ℚ) * |depthHeuristic (1 / 2)| ≠ 2 / 5 * |specDepthHeuristic (1 / 2)| := by
  refine ⟨by with_unfolding_all rfl, by with_unfolding_all rfl, by with_unfolding_all rfl,
    of_decide_eq_true (by with_unfolding_all rfl)⟩

/-- C5: for every well-formed buffer whose header parses to hd with no
colour fields resolved and whose body holds all vertexCount fixed-stride
records (each position field lies within the stride and the buffer covers
headerEnd + vertexCount * stride bytes), parsePLY succeeds with positions
and colors arrays of length exactly 3 * vertexCount, the j-th position
triple is the three little-endian binary32 values read at byte offsets
headerEnd + j*stride + ox/oy/oz in file order, and every colour entry is
white (1.0). -/
theorem c5_theorem (buf : List Nat) (hd : PlyHeader)
    (hph : parseHeader buf = Except.ok hd) (hcr : hd.colR = none)
    (hx : hd.ox + 4 ≤ hd.stride) (hy : hd.oy + 4 ≤ hd.stride) (hz : hd.oz + 4 ≤ hd.stride)
    (hlen : hd.headerEnd + hd.vertexCount * hd.stride ≤ buf.length) :
    parsePLY buf = Except.ok (positionsPerSpec buf hd 0 hd.vertexCount,
        List.replicate (3 * hd.vertexCount) (F32V.finite 1)) ∧
    (positionsPerSpec buf hd 0 hd.vertexCount).length = 3 * hd.vertexCount ∧
    (List.replicate (3 * hd.vertexCount) (F32V.finite 1)).length = 3 * hd.vertexCount ∧
    ∀ j, j < hd.vertexCount →
      (positionsPerSpec buf hd 0 hd.vertexCount).get? (3 * j)
          = some (decF32At buf (hd.headerEnd + j * hd.stride + hd.ox)) ∧
      (positionsPerSpec buf hd 0 hd.vertexCount).get? (3 * j + 1)
          = some (decF32At buf (hd.headerEnd + j * hd.stride + hd.oy)) ∧
      (positionsPerSpec buf hd 0 hd.vertexCount).get? (3 * j + 2)
          = some (decF32At buf (hd.headerEnd + j * hd.stride + hd.oz)) := by
  have hmain := parsePLY_of_header buf hd hph (fun j hj =>
    ⟨posOk_of_global buf hd j hj hx hy hz hlen, colOk_none buf hd j hcr⟩)
  rw [colorsPerSpec_white buf hd hcr] at hmain
  refine ⟨hmain, positionsPerSpec_length buf hd _ 0, by simp, fun j hj => ?_⟩
  have hg := positionsPerSpec_get buf hd hd.vertexCount 0 j hj
  rw [Nat.zero_add] at hg
  exact hg

/-- Byte values of an ASCII string, for the concrete buffers. -/
def bufStr (s : String) : List Nat := s.toList.map (fun c => c.toNat)

def c5hdrStr : String :=
  "ply\nelement vertex 2\nproperty float x\nproperty float y\nproperty float z\nend_header\n"

/-- Two records of three binary32 fields: (1.0, 2.0, 0.5) and (0.0, -1.0, 10.0). -/
def c5buf : List Nat := bufStr c5hdrStr ++
  ([0, 0, 128, 63] ++ [0, 0, 0, 64] ++ [0, 0, 0, 63] ++
    [0, 0, 0, 0] ++ [0, 0, 128, 191] ++ [0, 0, 32, 65])

def c5hdr : PlyHeader := ⟨83, 2, 12, 0, 4, 8, none, none, none, false⟩

/-- C5 witness on a concrete two-record buffer. -/
theorem c5_witness :
    parsePLY c5buf = Except.ok (positionsPerSpec c5buf c5hdr 0 c5hdr.vertexCount,
        List.replicate (3 * c5hdr.vertexCount) (F32V.finite 1)) ∧
    (positionsPerSpec c5buf c5hdr 0 c5hdr.vertexCount).length = 3 * c5hdr.vertexCount ∧
    (List.replicate (3 * c5hdr.vertexCount) (F32V.finite 1)).length = 3 * c5hdr.vertexCount ∧
    ∀ j, j < c5hdr.vertexCount →
      (positionsPerSpec c5buf c5hdr 0 c5hdr.vertexCount).get? (3 * j)
          = some (decF32At c5buf (c5hdr.headerEnd + j * c5hdr.stride + c5hdr.ox)) ∧
      (positionsPerSpec c5buf c5hdr 0 c5hdr.vertexCount).get? (3 * j + 1)
          = some (decF32At c5buf (c5hdr.headerEnd + j * c5hdr.stride + c5hdr.oy)) ∧
      (positionsPerSpec c5buf c5hdr 0 c5hdr.vertexCount).get? (3 * j + 2)
          = some (decF32At c5buf (c5hdr.headerEnd + j * c5hdr.stride + c5hdr.oz)) :=
  c5_theorem c5buf c5hdr (by with_unfolding_all rfl) rfl
    (by decide) (by decide) (by decide)
    (of_decide_eq_true (by with_unfolding_all rfl))

def c8zeroStr : String :=
  "ply\nelement vertex 0\nproperty float x\nproperty float y\nproperty float z\nend_header\n"

def c8zeroBuf : List Nat := bufStr c8zeroStr

/-- C8 (amended): parsePLY throws the descriptive missing-position error
whenever the header stage finds a vertex count and property lines but the
parsed property table lacks an x, y or z entry; a declared record count
of zero, however, is NOT rejected: a header declaring vertex 0 parses
successfully and returns empty positions and colors (see
c8_counterexample). -/
theorem c8_theorem :
    (∀ buf : List Nat, (∃ ds, scanVertex (headerTextOf buf) = some ds) →
      propLinesOf buf ≠ [] →
      (findOffset (propsOf buf) kwX = none ∨ findOffset (propsOf buf) kwY = none ∨
        findOffset (propsOf buf) kwZ = none) →
      parsePLY buf = Except.error PlyErr.missingPositionProps) ∧
    parsePLY c8zeroBuf = Except.ok ([], []) := by
  constructor
  · rintro buf ⟨ds, hds⟩ hL hmiss
    simp only [propsOf] at hmiss
    simp only [parsePLY, parseHeader, hds]
    rw [if_neg hL]
    rcases hx : findOffset (buildProps (propLinesOf buf)).1 kwX with _ | ox <;>
      rcases hy : findOffset (buildProps (propLinesOf buf)).1 kwY with _ | oy <;>
        rcases hz : findOffset (buildProps (propLinesOf buf)).1 kwZ with _ | oz <;>
          simp only [hx, hy, hz] <;>
            first
            | rfl
            | (rcases hmiss with hmx | hmy | hmz
               · rw [hx] at hmx; cases hmx
               · rw [hy] at hmy; cases hmy
               · rw [hz] at hmz; cases hmz)
  · with_unfolding_all rfl

def c8noZStr : String :=
  "ply\nelement vertex 1\nproperty float x\nproperty float y\nend_header\n"

def c8noZBuf : List Nat := bufStr c8noZStr

/-- C8 witness: a header lacking the z property makes parsePLY throw the
missing-position-properties error. -/
theorem c8_witness : parsePLY c8noZBuf = Except.error PlyErr.missingPositionProps :=
  c8_theorem.1 c8noZBuf ⟨['1'], by with_unfolding_all rfl⟩
    (of_decide_eq_true (by with_unfolding_all rfl))
    (Or.inr (Or.inr (by with_unfolding_all rfl)))

/-- C8 counterexample: a header declaring element vertex 0 with position
properties is accepted: parsePLY returns empty positions and colors
instead of failing, so the claim that a zero record count is rejected is
false on the code. -/
theorem c8_counterexample : parsePLY c8zeroBuf = Except.ok ([], []) := by
  with_unfolding_all rfl

/-- C9 (amended): a required read past the end of the data view throws:
whenever the buffer is too short for the last record's x-field read
(length < headerEnd + (vertexCount - 1) * stride + ox + 4), parsePLY
raises an error rather than wrapping or returning truncated data.  The
claim's bound headerEnd + vertexCount * stride is not the exact
threshold: a buffer shorter than that can still parse completely when
only trailing fields the parser never reads are missing (see
c9_counterexample). -/
theorem c9_theorem (buf : List Nat) (hd : PlyHeader)
    (hph : parseHeader buf = Except.ok hd) (hn : 1 ≤ hd.vertexCount)
    (hshort : buf.length < hd.headerEnd + (hd.vertexCount - 1) * hd.stride + hd.ox + 4) :
    isErrE (parsePLY buf) = true := by
  rw [parsePLY, hph]
  show isErrE (readRecordsAux buf hd 0 hd.vertexCount) = true
  cases hres : readRecordsAux buf hd 0 hd.vertexCount with
  | error e => rfl
  | ok pr =>
    have hb := readRecordsAux_ok_le buf hd hd.vertexCount 0 pr hres
      (hd.vertexCount - 1) (by omega)
    rw [Nat.zero_add, recBase] at hb
    omega

def c9shortStr : String :=
  "ply\nelement vertex 1\nproperty float x\nproperty float y\nproperty float z\nend_header\n"

def c9shortBuf : List Nat := bufStr c9shortStr ++ [0, 0]

set_option maxRecDepth 4000 in
/-- C9 witness: a one-record buffer with only two bytes of record data
raises rather than returning truncated output. -/
theorem c9_witness : isErrE (parsePLY c9shortBuf) = true :=
  c9_theorem c9shortBuf ⟨83, 1, 12, 0, 4, 8, none, none, none, false⟩
    (by with_unfolding_all rfl) (by decide)
    (of_decide_eq_true (by with_unfolding_all rfl))

def c9str : String :=
  "ply\nelement vertex 1\nproperty float x\nproperty float y\nproperty float z\nproperty float f_rest\nend_header\n"

def c9buf : List Nat := bufStr c9str ++ ([0, 0, 128, 63] ++ [0, 0, 0, 64] ++ [0, 0, 64, 64])

set_option maxRecDepth 8000 in
/-- C9 counterexample: this buffer is 4 bytes shorter than
headerEnd + vertexCount * stride (117 < 105 + 1 * 16 = 121) because the
trailing f_rest field of the single record is missing, yet parsePLY
succeeds, reading only the x, y, z fields; so the claim that every buffer
shorter than headerEnd + vertexCount * stride raises an error is false on
the code. -/
theorem c9_counterexample :
    (parseHeader c9buf).toOption.map (fun hd => hd.headerEnd + hd.vertexCount * hd.stride)
        = some 121 ∧
    c9buf.length = 117 ∧
    parsePLY c9buf = Except.ok ([F32V.finite 1, F32V.finite 2, F32V.finite 3],
      [F32V.finite 1, F32V.finite 1, F32V.finite 1]) := by
  refine ⟨by with_unfolding_all rfl, by with_unfolding_all rfl, by with_unfolding_all rfl⟩

/-- C10 (amended): when the end_header marker does not occur in the first
2048 bytes, indexOf returns -1 and headerEndIndex evaluates to 10, and
parsePLY indeed has no dedicated missing-marker failure; but binary
record decoding never proceeds from byte offset 10: the property scan
then sees only headerText.slice(0, 10), whose ten characters can never
declare the x, y and z position fields, so parsePLY throws one of the
three header errors before any record is decoded. -/
theorem c10_theorem (buf : List Nat)
    (hm : indexOfSub kwEndHeader (headerTextOf buf) = none) :
    headerEndOf buf = 10 ∧
    (parsePLY buf = Except.error PlyErr.missingVertexCount ∨
      parsePLY buf = Except.error PlyErr.noProperties ∨
      parsePLY buf = Except.error PlyErr.missingPositionProps) :=
  ⟨headerEndOf_absent buf hm, parsePLY_absent buf hm⟩

def c10str : String := "property felement vertex 1"

def c10buf : List Nat := bufStr c10str

/-- C10 witness: a buffer with no end_header marker. -/
theorem c10_witness :
    headerEndOf c10buf = 10 ∧
    (parsePLY c10buf = Except.error PlyErr.missingVertexCount ∨
      parsePLY c10buf = Except.error PlyErr.noProperties ∨
      parsePLY c10buf = Except.error PlyErr.missingPositionProps) :=
  c10_theorem c10buf (by with_unfolding_all rfl)

/-- C10 counterexample: on this buffer the end_header marker is absent,
yet both the element-vertex pattern and the property pattern match in the
scanned text; decoding still does not proceed from byte offset 10 —
parsePLY throws the missing-position-properties error instead, so the
claim that record decoding proceeds is false on the code. -/
theorem c10_counterexample :
    indexOfSub kwEndHeader (headerTextOf c10buf) = none ∧
    (∃ ds, scanVertex (headerTextOf c10buf) = some ds) ∧
    propLinesOf c10buf ≠ [] ∧
    parsePLY c10buf = Except.error PlyErr.missingPositionProps := by
  refine ⟨by with_unfolding_all rfl, ⟨['1'], by with_unfolding_all rfl⟩,
    of_decide_eq_true (by with_unfolding_all rfl), by with_unfolding_all rfl⟩

/-- C6 (amended): the parser resolves colour offsets from the
spherical-harmonics DC names f_dc_0/f_dc_1/f_dc_2 whenever a property
named f_dc_0 is declared (of any recognized type), and falls back to the
plain red/green/blue names only when f_dc_0 is absent.  The affine decode
channel = 0.5 + C0 * raw with C0 = 0.28209479177387814 applies exactly
when the f_dc_0 property is float-typed (hd.isSH); otherwise the parser
reads unsigned bytes at the resolved offsets and divides by 255.
Scenario (a): a float-typed f_dc header decodes every colour channel as
the SH map of the binary32 at the f_dc offsets.  Scenario (b): a header
whose colour offsets come from byte fields decodes every channel as
byte / 255 (values in [0, 1]).  A header with a non-float f_dc_0 and
red/green/blue both present reads bytes at the f_dc offsets, not the
red/green/blue fields (see c6_counterexample). -/
theorem c6_theorem :
    (∀ (buf : List Nat) (hd : PlyHeader) (r g b : Nat),
      parseHeader buf = Except.ok hd →
      hd.colR = some r → hd.colG = some g → hd.colB = some b → hd.isSH = true →
      hd.ox + 4 ≤ hd.stride → hd.oy + 4 ≤ hd.stride → hd.oz + 4 ≤ hd.stride →
      r + 4 ≤ hd.stride → g + 4 ≤ hd.stride → b + 4 ≤ hd.stride →
      hd.headerEnd + hd.vertexCount * hd.stride ≤ buf.length →
      parsePLY buf = Except.ok (positionsPerSpec buf hd 0 hd.vertexCount,
        colorsPerSpec buf hd 0 hd.vertexCount) ∧
      ∀ j, j < hd.vertexCount →
        (colorsPerSpec buf hd 0 hd.vertexCount).get? (3 * j)
            = some (shDec (decF32At buf (hd.headerEnd + j * hd.stride + r))) ∧
        (colorsPerSpec buf hd 0 hd.vertexCount).get? (3 * j + 1)
            = some (shDec (decF32At buf (hd.headerEnd + j * hd.stride + g))) ∧
        (colorsPerSpec buf hd 0 hd.vertexCount).get? (3 * j + 2)
            = some (shDec (decF32At buf (hd.headerEnd + j * hd.stride + b)))) ∧
    (∀ q : ℚ, shDec (F32V.finite q) = F32V.finite (mkRat 1 2 + shC0 * q)) ∧
    shC0 = mkRat 28209479177387814 (10 ^ 17) ∧
    (∀ (buf : List Nat) (hd : PlyHeader) (r g b : Nat),
      parseHeader buf = Except.ok hd →
      hd.colR = some r → hd.colG = some g → hd.colB = some b → hd.isSH = false →
      hd.ox + 4 ≤ hd.stride → hd.oy + 4 ≤ hd.stride → hd.oz + 4 ≤ hd.stride →
      r + 1 ≤ hd.stride → g + 1 ≤ hd.stride → b + 1 ≤ hd.stride →
      hd.headerEnd + hd.vertexCount * hd.stride ≤ buf.length →
      parsePLY buf = Except.ok (positionsPerSpec buf hd 0 hd.vertexCount,
        colorsPerSpec buf hd 0 hd.vertexCount) ∧
      ∀ j, j < hd.vertexCount →
        (colorsPerSpec buf hd 0 hd.vertexCount).get? (3 * j)
            = some (F32V.finite (mkRat (byteAt buf (hd.headerEnd + j * hd.stride + r)) 255)) ∧
        (colorsPerSpec buf hd 0 hd.vertexCount).get? (3 * j + 1)
            = some (F32V.finite (mkRat (byteAt buf (hd.headerEnd + j * hd.stride + g)) 255)) ∧
        (colorsPerSpec buf hd 0 hd.vertexCount).get? (3 * j + 2)
            = some (F32V.finite (mkRat (byteAt buf (hd.headerEnd + j * hd.stride + b)) 255))) := by
  refine ⟨?_, fun q => rfl, rfl, ?_⟩
  · intro buf hd r g b hph hr hg hb hsh hx hy hz h4r h4g h4b hlen
    have hmain := parsePLY_of_header buf hd hph (fun j hj =>
      ⟨posOk_of_global buf hd j hj hx hy hz hlen,
        colOk_sh_of_global buf hd j r g b hj hr hg hb hsh h4r h4g h4b hlen⟩)
    refine ⟨hmain, fun j hj => ?_⟩
    have hcsa : colorSpecAt buf hd (recBase hd (0 + j)) =
        [shDec (decF32At buf (recBase hd (0 + j) + r)),
          shDec (decF32At buf (recBase hd (0 + j) + g)),
          shDec (decF32At buf (recBase hd (0 + j) + b))] := by
      rw [colorSpecAt, hr]
      simp only [hsh, if_true, hg, hb, colAddr]
    have h0 := colorsPerSpec_get buf hd hd.vertexCount 0 j 0 hj (by omega)
    have h1 := colorsPerSpec_get buf hd hd.vertexCount 0 j 1 hj (by omega)
    have h2 := colorsPerSpec_get buf hd hd.vertexCount 0 j 2 hj (by omega)
    rw [hcsa] at h0 h1 h2
    rw [Nat.add_zero] at h0
    rw [Nat.zero_add] at h0 h1 h2
    exact ⟨h0, h1, h2⟩
  · intro buf hd r g b hph hr hg hb hsh hx hy hz h1r h1g h1b hlen
    have hmain := parsePLY_of_header buf hd hph (fun j hj =>
      ⟨posOk_of_global buf hd j hj hx hy hz hlen,
        colOk_byte_of_global buf hd j r g b hj hr hg hb hsh h1r h1g h1b hlen⟩)
    refine ⟨hmain, fun j hj => ?_⟩
    have hcsa : colorSpecAt buf hd (recBase hd (0 + j)) =
        [F32V.finite (mkRat (byteAt buf (recBase hd (0 + j) + r)) 255),
          F32V.finite (mkRat (byteAt buf (recBase hd (0 + j) + g)) 255),
          F32V.finite (mkRat (byteAt buf (recBase hd (0 + j) + b)) 255)] := by
      rw [colorSpecAt, hr]
      simp only [hsh, Bool.false_eq_true, if_false, hg, hb, colAddr]
    have h0 := colorsPerSpec_get buf hd hd.vertexCount 0 j 0 hj (by omega)
    have h1 := colorsPerSpec_get buf hd hd.vertexCount 0 j 1 hj (by omega)
    have h2 := colorsPerSpec_get buf hd hd.vertexCount 0 j 2 hj (by omega)
    rw [hcsa] at h0 h1 h2
    rw [Nat.add_zero] at h0
    rw [Nat.zero_add] at h0 h1 h2
    exact ⟨h0, h1, h2⟩

def c6strA : String :=
  "ply\nelement vertex 1\nproperty float x\nproperty float y\nproperty float z\nproperty float f_dc_0\nproperty float f_dc_1\nproperty float f_dc_2\nend_header\n"

def c6bufA : List Nat := bufStr c6strA ++
  ([0, 0, 0, 0] ++ [0, 0, 0, 0] ++ [0, 0, 0, 0] ++
    [0, 0, 128, 63] ++ [0, 0, 0, 0] ++ [0, 0, 0, 64])

def c6hdrA : PlyHeader := ⟨149, 1, 24, 0, 4, 8, some 12, some 16, some 20, true⟩

def c6strB : String :=
  "ply\nelement vertex 1\nproperty float x\nproperty float y\nproperty float z\nproperty uchar red\nproperty uchar green\nproperty uchar blue\nend_header\n"

def c6bufB : List Nat := bufStr c6strB ++
  ([0, 0, 0, 0] ++ [0, 0, 0, 0] ++ [0, 0, 0, 0] ++ [255, 128, 0])

def c6hdrB : PlyHeader := ⟨143, 1, 15, 0, 4, 8, some 12, some 13, some 14, false⟩

set_option maxRecDepth 8000 in
/-- C6 witness: a float-typed f_dc header decodes by the SH affine map,
and a red/green/blue byte header decodes by byte / 255. -/
theorem c6_witness :
    (parsePLY c6bufA = Except.ok (positionsPerSpec c6bufA c6hdrA 0 c6hdrA.vertexCount,
        colorsPerSpec c6bufA c6hdrA 0 c6hdrA.vertexCount) ∧
      ∀ j, j < c6hdrA.vertexCount →
        (colorsPerSpec c6bufA c6hdrA 0 c6hdrA.vertexCount).get? (3 * j)
            = some (shDec (decF32At c6bufA (c6hdrA.headerEnd + j * c6hdrA.stride + 12))) ∧
        (colorsPerSpec c6bufA c6hdrA 0 c6hdrA.vertexCount).get? (3 * j + 1)
            = some (shDec (decF32At c6bufA (c6hdrA.headerEnd + j * c6hdrA.stride + 16))) ∧
        (colorsPerSpec c6bufA c6hdrA 0 c6hdrA.vertexCount).get? (3 * j + 2)
            = some (shDec (decF32At c6bufA (c6hdrA.headerEnd + j * c6hdrA.stride + 20)))) ∧
    (parsePLY c6bufB = Except.ok (positionsPerSpec c6bufB c6hdrB 0 c6hdrB.vertexCount,
        colorsPerSpec c6bufB c6hdrB 0 c6hdrB.vertexCount) ∧
      ∀ j, j < c6hdrB.vertexCount →
        (colorsPerSpec c6bufB c6hdrB 0 c6hdrB.vertexCount).get? (3 * j)
            = some (F32V.finite (mkRat (byteAt c6bufB (c6hdrB.headerEnd + j * c6hdrB.stride + 12)) 255)) ∧
        (colorsPerSpec c6bufB c6hdrB 0 c6hdrB.vertexCount).get? (3 * j + 1)
            = some (F32V.finite (mkRat (byteAt c6bufB (c6hdrB.headerEnd + j * c6hdrB.stride + 13)) 255)) ∧
        (colorsPerSpec c6bufB c6hdrB 0 c6hdrB.vertexCount).get? (3 * j + 2)
            = some (F32V.finite (mkRat (byteAt c6bufB (c6hdrB.headerEnd + j * c6hdrB.stride + 14)) 255))) :=
  ⟨c6_theorem.1 c6bufA c6hdrA 12 16 20 (by with_unfolding_all rfl) rfl rfl rfl rfl
      (by decide) (by decide) (by decide) (by decide) (by decide) (by decide)
      (of_decide_eq_true (by with_unfolding_all rfl)),
    c6_theorem.2.2.2 c6bufB c6hdrB 12 13 14 (by with_unfolding_all rfl) rfl rfl rfl rfl
      (by decide) (by decide) (by decide) (by decide) (by decide) (by decide)
      (of_decide_eq_true (by with_unfolding_all rfl))⟩

def c6strX : String :=
  "ply\nelement vertex 1\nproperty float x\nproperty float y\nproperty float z\nproperty double f_dc_0\nproperty double f_dc_1\nproperty double f_dc_2\nproperty uchar red\nproperty uchar green\nproperty uchar blue\nend_header\n"

def c6bufX : List Nat := bufStr c6strX ++ (List.replicate 36 0 ++ [255, 255, 255])

set_option maxRecDepth 12000 in
/-- C6 counterexample: a header declaring f_dc_0/1/2 with type double and
red/green/blue with type uchar.  The spherical-harmonics fields are not
float-typed, so by the claim the parser should fall back to the plain RGB
byte fields, whose bytes are all 255 (channel 1.0); instead the parser
keeps the f_dc offsets (12, 20, 28) with the byte decode and reads the
zero bytes there, producing channel 0.0 ≠ 255 / 255, so the claim is
false on the code. -/
theorem c6_counterexample :
    (parseHeader c6bufX).toOption.map (fun hd => (hd.colR, hd.colG, hd.colB, hd.isSH))
        = some (some 12, some 20, some 28, false) ∧
    findOffset (propsOf c6bufX) kwRed = some 36 ∧
    byteAt c6bufX (headerEndOf c6bufX + 36) = 255 ∧
    (parsePLY c6bufX).toOption.map Prod.snd
        = some [F32V.finite 0, F32V.finite 0, F32V.finite 0] ∧
    F32V.finite 0 ≠ F32V.finite (mkRat 255 255) := by
  refine ⟨by with_unfolding_all rfl, by with_unfolding_all rfl, by with_unfolding_all rfl,
    by with_unfolding_all rfl, of_decide_eq_true (by with_unfolding_all rfl)⟩
